import Mathlib

set_option maxHeartbeats 1000000

/-!
Shallow embedding of the data-windowing pipeline of `modules/file_handler.py`:
the spreadsheet header guess (`read_uploaded_file_basic`), the region selector
(`manual_data_selection_sidebar`, `apply_auto_detection`, `find_data_start_dynamic`
and its predicates), the temporal converter
(`convert_selected_columns_to_datetime`) and the range filter
(`filter_by_date_range`).

Cells are modelled by `Value` (missing / text / number / timestamp); a pandas
DataFrame with its default RangeIndex is modelled by `Table` (column labels plus
row-major rows), so positional and label-based indexing coincide, as they do for
every table produced by the loader.  Timestamps are integers counting seconds,
matching the one-second granularity used by `pd.Timedelta(seconds=1)` in the
range filter.  Strings are lists of characters.
-/

/-- A cell value: missing (NaN/NaT), text, a number, or a timestamp
(seconds since the epoch). -/
inductive Value where
  | missing : Value
  | text : List Char → Value
  | num : Int → Value
  | ts : Int → Value
deriving DecidableEq

/-- A DataFrame with default RangeIndex: column labels (the header row's
values) and row-major rows. -/
structure Table where
  labels : List Value
  rows : List (List Value)
deriving DecidableEq

/-- Python `str.strip()`: drop leading and trailing whitespace. -/
def stripChars (s : List Char) : List Char :=
  ((s.dropWhile Char.isWhitespace).reverse.dropWhile Char.isWhitespace).reverse

/-- Python `str.upper()` (ASCII model). -/
def toUpperStr (s : List Char) : List Char := s.map Char.toUpper

/-- Python substring containment `needle in hay` (note `"" in s` is `True`). -/
def containsSub : List Char → List Char → Bool
  | n, [] => n.isEmpty
  | n, c :: cs => n.isPrefixOf (c :: cs) || containsSub n cs

/-- Python `str(value)`.  Detection only ever applies it after the blank check,
and the claims only exercise text cells; numeric and timestamp cells get their
decimal rendering, which is never blank and never a date pattern. -/
def strOfValue : Value → List Char
  | .missing => ['n', 'a', 'n']
  | .text s => s
  | .num n => (toString n).data
  | .ts t => (toString t).data

/-- The blank test of `find_data_start_dynamic` and of the cut-at-empty mask:
`pd.isna(value) or value == "" or str(value).strip() == ""`.  Numeric and
timestamp cells render to non-blank text, so only missing and
whitespace-only/empty text cells are blank. -/
def isBlankValue : Value → Bool
  | .missing => true
  | .text s => stripChars s |>.isEmpty
  | .num _ => false
  | .ts _ => false

/-- Consume exactly `n` digit characters, returning the remainder
(the regex atom `\d{n}`). -/
def matchNDigits : Nat → List Char → Option (List Char)
  | 0, cs => some cs
  | _ + 1, [] => none
  | n + 1, c :: cs => if c.isDigit then matchNDigits n cs else none

/-- Consume one expected literal character, returning the remainder. -/
def afterChar (sep : Char) : List Char → Option (List Char)
  | [] => none
  | c :: cs => if c = sep then some cs else none

/-- All remainders after consuming one or two digits (the regex atom `\d{1,2}`
with backtracking). -/
def afterDigits12 (cs : List Char) : List (List Char) :=
  (matchNDigits 1 cs).toList ++ (matchNDigits 2 cs).toList

/-- Matching of `re.match` for `\d{1,2} sep \d{1,2} sep \d{4}` (anchored at the start only,
the tail of the string is unconstrained). -/
def matchesDMY (sep : Char) (cs : List Char) : Bool :=
  (afterDigits12 cs).any fun r1 =>
    match afterChar sep r1 with
    | none => false
    | some r2 =>
      (afterDigits12 r2).any fun r3 =>
        match afterChar sep r3 with
        | none => false
        | some r4 => (matchNDigits 4 r4).isSome

/-- Matching of `re.match` for `\d{4}-\d{1,2}-\d{1,2}` (anchored at the start only). -/
def matchesYMD (cs : List Char) : Bool :=
  match matchNDigits 4 cs with
  | none => false
  | some r1 =>
    match afterChar '-' r1 with
    | none => false
    | some r2 =>
      (afterDigits12 r2).any fun r3 =>
        match afterChar '-' r3 with
        | none => false
        | some r4 => !(afterDigits12 r4).isEmpty

/-- Source `is_date_pattern`: `re.match` of one of
`\d{1,2}-\d{1,2}-\d{4}`, `\d{4}-\d{1,2}-\d{1,2}`, `\d{1,2}/\d{1,2}/\d{4}`. -/
def is_date_pattern (cs : List Char) : Bool :=
  matchesDMY '-' cs || matchesYMD cs || matchesDMY '/' cs

/-- Drop one optional leading sign character. -/
def dropSignChar : List Char → List Char
  | [] => []
  | c :: cs => if c = '+' || c = '-' then cs else c :: cs

/-- Acceptance of the exponent part of a Python float literal: either nothing,
or `e`/`E`, an optional sign and at least one digit. -/
def expPartOk : List Char → Bool
  | [] => true
  | c :: cs =>
    (c = 'e' || c = 'E') &&
      (let ds := dropSignChar cs
       !ds.isEmpty && ds.all Char.isDigit)

/-- Acceptance of the unsigned body of a Python float literal:
`digits [. digits] [exp]` or `. digits [exp]`. -/
def floatBodyOk (s : List Char) : Bool :=
  let ip := s.takeWhile Char.isDigit
  let r1 := s.dropWhile Char.isDigit
  match r1 with
  | '.' :: r2 =>
    let fp := r2.takeWhile Char.isDigit
    let r3 := r2.dropWhile Char.isDigit
    (!ip.isEmpty || !fp.isEmpty) && expPartOk r3
  | _ => !ip.isEmpty && expPartOk r1

/-- The special float spellings `inf`, `infinity`, `nan` (case-insensitive). -/
def isInfNanStr (s : List Char) : Bool :=
  toUpperStr s == ['I', 'N', 'F'] ||
  toUpperStr s == ['I', 'N', 'F', 'I', 'N', 'I', 'T', 'Y'] ||
  toUpperStr s == ['N', 'A', 'N']

/-- Modelled from library behavior: whether Python `float(...)` accepts a
string (whitespace-stripped, optional sign, decimal/exponent body or
inf/nan). -/
def pyFloatAccepts (s0 : List Char) : Bool :=
  let s := stripChars s0
  let b := dropSignChar s
  isInfNanStr b || floatBodyOk b

/-- Source `is_numeric_pattern`: `float(value_str.replace(",", ""))` succeeds —
every comma is removed, then the result must parse as a float. -/
def is_numeric_pattern (s : List Char) : Bool :=
  pyFloatAccepts (s.filter (fun c => c != ','))

/-- The fixed `header_indicators` list of `looks_like_header`. -/
def header_indicators : List (List Char) :=
  [['D', 'A', 'T', 'E'], ['T', 'Y', 'P', 'E'],
   ['N', 'U', 'M', 'B', 'E', 'R'], ['A', 'M', 'O', 'U', 'N', 'T'],
   ['D', 'E', 'S', 'C', 'R', 'I', 'P', 'T', 'I', 'O', 'N'], ['I', 'D']]

/-- Python `str.isupper()` (ASCII model): at least one letter, and no
lowercase letter. -/
def pyIsUpper (s : List Char) : Bool :=
  s.any Char.isAlpha && s.all (fun c => !c.isLower)

/-- Source `looks_like_header`: length below 20 and (all-caps or containing one of
the header indicator words). -/
def looks_like_header (s : List Char) : Bool :=
  decide (s.length < 20) &&
    (pyIsUpper s || header_indicators.any (fun w => containsSub w (toUpperStr s)))

/-- The four entries of the detection-method selectbox. -/
inductive DetectionMethod where
  | datePatterns
  | numericPatterns
  | nonEmptyAfterEmpty
  | firstNonHeaderRow
deriving DecidableEq

/-- The predicate each detection method applies to the trimmed cell text
("Non-empty after empty" matches unconditionally, as in the source). -/
def methodPred (m : DetectionMethod) (s : List Char) : Bool :=
  match m with
  | .datePatterns => is_date_pattern s
  | .numericPatterns => is_numeric_pattern s
  | .nonEmptyAfterEmpty => true
  | .firstNonHeaderRow => !looks_like_header s

/-- The skip test of `find_data_start_dynamic`:
`any(skip_word in value_str.upper() for skip_word in skip_words)`. -/
def containsSkipWord (skip_words : List (List Char)) (s : List Char) : Bool :=
  skip_words.any (fun w => containsSub w (toUpperStr s))

/-- The loop of `find_data_start_dynamic`, with `i` the index of the current
row: blank rows are skipped, rows whose trimmed text contains a skip word are
skipped, then the selected method's test decides whether to return `i` or to
keep scanning. -/
def find_data_start_from (skip_words : List (List Char)) (m : DetectionMethod) :
    Nat → List Value → Option Nat
  | _, [] => none
  | i, v :: vs =>
    if isBlankValue v then find_data_start_from skip_words m (i + 1) vs
    else
      let value_str := stripChars (strOfValue v)
      if containsSkipWord skip_words value_str then
        find_data_start_from skip_words m (i + 1) vs
      else
        match m with
        | .datePatterns =>
          if is_date_pattern value_str then some i
          else find_data_start_from skip_words m (i + 1) vs
        | .numericPatterns =>
          if is_numeric_pattern value_str then some i
          else find_data_start_from skip_words m (i + 1) vs
        | .nonEmptyAfterEmpty => some i
        | .firstNonHeaderRow =>
          if !looks_like_header value_str then some i
          else find_data_start_from skip_words m (i + 1) vs

/-- Source `find_data_start_dynamic(first_col_data, skip_words, detection_method)`. -/
def find_data_start_dynamic (first_col_data : List Value)
    (skip_words : List (List Char)) (m : DetectionMethod) : Option Nat :=
  find_data_start_from skip_words m 0 first_col_data

/-- A row qualifies as the data start (code form): non-blank first cell, the
trimmed text contains no skip word (the text upper-cased, the words as
configured), and the method predicate holds. -/
def rowQualifies (skip_words : List (List Char)) (m : DetectionMethod) (v : Value) : Bool :=
  !isBlankValue v &&
    !containsSkipWord skip_words (stripChars (strOfValue v)) &&
    methodPred m (stripChars (strOfValue v))

/-- Case-insensitive substring containment (both sides upper-cased). -/
def caseInsensitiveContains (w s : List Char) : Bool :=
  containsSub (toUpperStr w) (toUpperStr s)

/-- A row qualifies as the data start (spec form): non-blank first cell, the
trimmed text contains no skip word under case-insensitive comparison, and the
method predicate holds. -/
def rowQualifiesCI (skip_words : List (List Char)) (m : DetectionMethod) (v : Value) : Bool :=
  !isBlankValue v &&
    !(skip_words.any fun w => caseInsensitiveContains w (stripChars (strOfValue v))) &&
    methodPred m (stripChars (strOfValue v))

/-- The first column's values, `df[df.columns[0]]`. -/
def first_col_values (df : Table) : List Value :=
  df.rows.map (fun r => r.headD Value.missing)

/-- Slicing `df.loc[a : b].copy()` under the default RangeIndex: the inclusive row
slice `[a, b]`, labels unchanged. -/
def sliceRows (df : Table) (a b : Nat) : Table :=
  ⟨df.labels, (df.rows.drop a).take (b + 1 - a)⟩

/-- Evaluation of `mask.idxmax()` over a boolean mask starting at offset 0: the position
of the first `true`, if any. -/
def firstTrueIdx {α : Type} (p : α → Bool) : List α → Option Nat
  | [] => none
  | x :: xs => if p x then some 0 else (firstTrueIdx p xs).map (· + 1)

/-- The outcome `apply_auto_detection` signals alongside the returned table:
an empty input is returned silently, a failed detection is returned with the
"Could not detect data start" warning, a successful detection reports the
detected start and end rows. -/
inductive DetectOutcome where
  | emptyInput
  | detectionFailed
  | detected (dataStart dataEnd : Nat)
deriving DecidableEq

/-- Source `apply_auto_detection(df, skip_words, detection_method, cut_at_empty)`.
On success the code slices `df.loc[start : first_null - 1]` (label-based,
inclusive) when a blank follows the start, else `df.loc[start:]`. -/
def apply_auto_detection (df : Table) (skip_words : List (List Char))
    (m : DetectionMethod) (cut_at_empty : Bool) : Table × DetectOutcome :=
  if df.rows.isEmpty || df.labels.isEmpty then (df, .emptyInput)
  else
    let first_col_data := first_col_values df
    match find_data_start_dynamic first_col_data skip_words m with
    | none => (df, .detectionFailed)
    | some s =>
      if cut_at_empty then
        match firstTrueIdx isBlankValue (first_col_data.drop s) with
        | some k => (sliceRows df s (s + k - 1), .detected s (s + k - 1))
        | none =>
          (sliceRows df s (df.rows.length - 1), .detected s (df.rows.length - 1))
      else (sliceRows df s (df.rows.length - 1), .detected s (df.rows.length - 1))

/-- Whether a manual range request is honoured or rejected. -/
inductive ManualOutcome where
  | selected
  | rangeError
deriving DecidableEq

/-- Source `manual_data_selection_sidebar(df)` with the user's start and end rows.
The two `st.number_input` widgets enforce `0 ≤ start ≤ len-1` and
`start ≤ end ≤ len-1`; a request outside those bounds is rejected by the
widget, modelled here as `rangeError` with the table unchanged.  Within
bounds the code returns `df.iloc[start : end + 1].copy()`. -/
def manual_data_selection_sidebar (df : Table) (start_row end_row : Nat) :
    Table × ManualOutcome :=
  if start_row + 1 ≤ df.rows.length ∧ start_row ≤ end_row ∧
      end_row + 1 ≤ df.rows.length then
    (sliceRows df start_row end_row, .selected)
  else (df, .rangeError)

/-- The number of non-missing cells of a row, `row.notnull().sum()`. -/
def countNonNull (r : List Value) : Nat :=
  (r.filter (fun v => v != Value.missing)).length

/-- Maximum of a list of naturals (0 on the empty list). -/
def listMaxNat (l : List Nat) : Nat := l.foldr Nat.max 0

/-- Index of the first occurrence of `t` (length of the list if absent). -/
def firstEqIdx (t : Nat) : List Nat → Nat
  | [] => 0
  | x :: xs => if x = t then 0 else firstEqIdx t xs + 1

/-- Evaluation of `Series.idxmax()` over a RangeIndex-labelled series of counts: the label
of the first occurrence of the maximum. -/
def idxmax (l : List Nat) : Nat := firstEqIdx (listMaxNat l) l

/-- The header guess `pd.read_excel(..., header=None, nrows=5).notnull().sum(axis=1).idxmax()`:
count the non-null cells of the first five raw rows and take the first row
index attaining the maximum. -/
def likely_header_row (raw : List (List Value)) : Nat :=
  idxmax ((raw.take 5).map countNonNull)

/-- The spreadsheet branch of `read_uploaded_file_basic`: guess the header
row, then `pd.read_excel(..., header=h)` — row `h` becomes the column labels
and the rows after it become the data rows. -/
def read_uploaded_file_basic (raw : List (List Value)) : Table :=
  let h := likely_header_row raw
  ⟨raw.getD h [], raw.drop (h + 1)⟩

/-- Days since 1970-01-01 of a proleptic Gregorian date (the standard
civil-from-days inverse, with C-style truncated division exactly as a
library implements it). -/
def daysFromCivil (y m d : Int) : Int :=
  let y' := if m ≤ 2 then y - 1 else y
  let era := (if 0 ≤ y' then y' else y' - 399) / 400
  let yoe := y' - era * 400
  let mp := (m + 9) % 12
  let doy := (153 * mp + 2) / 5 + d - 1
  let doe := yoe * 365 + yoe / 4 - yoe / 100 + doy
  era * 146097 + doe - 719468

/-- Digit characters to a natural number. -/
def digitsToNat (ds : List Char) : Nat :=
  ds.foldl (fun a c => a * 10 + (c.toNat - 48)) 0

/-- Modelled from library behavior: the slice of `pd.to_datetime` parsing
needed here — a strict ISO `YYYY-M-D` date (4-digit year, 1-2 digit month and
day, in range) parses to its midnight timestamp; richer formats are not
exercised by any claim. -/
def parseISODate (cs0 : List Char) : Option Int :=
  let cs := stripChars cs0
  let y := cs.takeWhile Char.isDigit
  let r1 := cs.dropWhile Char.isDigit
  match r1 with
  | '-' :: r2 =>
    let mo := r2.takeWhile Char.isDigit
    let r3 := r2.dropWhile Char.isDigit
    match r3 with
    | '-' :: r4 =>
      let d := r4.takeWhile Char.isDigit
      let r5 := r4.dropWhile Char.isDigit
      if y.length = 4 ∧ (mo.length = 1 ∨ mo.length = 2) ∧
          (d.length = 1 ∨ d.length = 2) ∧ r5.isEmpty = true ∧
          1 ≤ digitsToNat mo ∧ digitsToNat mo ≤ 12 ∧
          1 ≤ digitsToNat d ∧ digitsToNat d ≤ 31 then
        some (daysFromCivil (digitsToNat y) (digitsToNat mo) (digitsToNat d))
      else none
    | _ => none
  | _ => none

/-- Modelled from library behavior: `pd.to_datetime(value, errors="coerce")`
per cell — timestamps pass through, parseable text becomes a timestamp,
everything else (including missing) is coerced to missing (NaT). -/
def to_datetime_coerce (v : Value) : Value :=
  match v with
  | .missing => .missing
  | .ts t => .ts t
  | .num _ => .missing
  | .text s =>
    match parseISODate s with
    | some days => .ts (days * 86400)
    | none => .missing

/-- First index whose label equals `c` (length of the list if absent);
`df[col]` column lookup. -/
def labelIndex (labels : List Value) (c : Value) : Nat :=
  match labels with
  | [] => 0
  | l :: ls => if l = c then 0 else labelIndex ls c + 1

/-- Apply `f` to the element at position `j` of a row, if present. -/
def applyAt (f : Value → Value) : Nat → List Value → List Value
  | _, [] => []
  | 0, v :: vs => f v :: vs
  | n + 1, v :: vs => v :: applyAt f n vs

/-- One loop iteration `df[col] = pd.to_datetime(df[col], errors="coerce")`:
replace column `col` of the table by its cellwise conversion. -/
def setColumn (parse : Value → Value) (df : Table) (c : Value) : Table :=
  ⟨df.labels, df.rows.map (applyAt parse (labelIndex df.labels c))⟩

/-- Source `convert_selected_columns_to_datetime(df)` with the user's chosen columns
and the cell parser.  The assignment `df[col] = ...` mutates the DataFrame
object in place and the function returns that same object, so after the call
the caller's original reference and the returned value are aliases of the
post-assignment table.  The heap cell is modelled explicitly: the first
component is what the caller's pre-call reference observes after the call,
the second is the returned table. -/
def convert_selected_columns_to_datetime (parse : Value → Value) (df : Table)
    (columns_to_convert : List Value) : Table × Table :=
  let post := columns_to_convert.foldl (setColumn parse) df
  (post, post)

/-- The test `pd.api.types.is_datetime64_any_dtype` on a materialised column: the
column holds timestamps (with NaT for missing) and is not a non-datetime
column — modelled as: at least one timestamp cell, and every cell a timestamp
or missing. -/
def is_datetime_col (vs : List Value) : Bool :=
  vs.any (fun v => match v with | .ts _ => true | _ => false) &&
    vs.all (fun v => match v with | .ts _ => true | .missing => true | _ => false)

/-- The values of column `j` of a table. -/
def colValues (df : Table) (j : Nat) : List Value :=
  df.rows.map (fun r => r.getD j Value.missing)

/-- The `datetime_cols` scan of `filter_by_date_range`: the positions of the
datetime-typed columns. -/
def datetime_cols (df : Table) : List Nat :=
  (List.range df.labels.length).filter (fun j => is_datetime_col (colValues df j))

/-- The comparison `df[date_column] >= start_datetime` on one cell: `false` on NaT/non-ts. -/
def value_ge (v : Value) (t : Int) : Bool :=
  match v with
  | .ts x => decide (t ≤ x)
  | _ => false

/-- The comparison `df[date_column] <= end_datetime` on one cell: `false` on NaT/non-ts. -/
def value_le (v : Value) (t : Int) : Bool :=
  match v with
  | .ts x => decide (x ≤ t)
  | _ => false

/-- The outcome `filter_by_date_range` signals alongside the returned table. -/
inductive FilterOutcome where
  | noDatetimeCols
  | skipped
  | filtered (original kept : Nat)
  | invalidRange
deriving DecidableEq

/-- Seconds per day (timestamps count seconds, the granularity of
`pd.Timedelta(seconds=1)`). -/
def secondsPerDay : Int := 86400

/-- Source `filter_by_date_range(df)` with the user's column choice, dates and skip
flag.  No datetime column: the table is returned unchanged with an info
message.  Skip: unchanged.  `start_date <= end_date`: keep the rows with
`start_datetime <= v <= end_datetime` where the upper bound is
`end + 1 day - 1 second`.  Otherwise the "Start date must be before end
date" error is shown and the table returned unchanged. -/
def filter_by_date_range (df : Table) (j : Nat) (start_date end_date : Int)
    (skip : Bool) : Table × FilterOutcome :=
  if datetime_cols df = [] then (df, .noDatetimeCols)
  else if skip then (df, .skipped)
  else if start_date ≤ end_date then
    let start_datetime := start_date * secondsPerDay
    let end_datetime := (end_date + 1) * secondsPerDay - 1
    let kept := df.rows.filter (fun r =>
      value_ge (r.getD j Value.missing) start_datetime &&
        value_le (r.getD j Value.missing) end_datetime)
    (⟨df.labels, kept⟩, .filtered df.rows.length kept.length)
  else (df, .invalidRange)

/-- Claim-side form: the string begins with the literal form `D sep M sep
YYYY` — 1-2 digit day, the separator, 1-2 digit month, the separator, a
4-digit year, then anything. -/
def dmyForm (sep : Char) (cs : List Char) : Prop :=
  ∃ d m y rest, cs = d ++ sep :: (m ++ sep :: (y ++ rest)) ∧
    (d.length = 1 ∨ d.length = 2) ∧ d.all Char.isDigit = true ∧
    (m.length = 1 ∨ m.length = 2) ∧ m.all Char.isDigit = true ∧
    y.length = 4 ∧ y.all Char.isDigit = true

/-- Claim-side form: the string begins with the literal form `YYYY-M-D` — a
4-digit year, dash, 1-2 digit month, dash, 1-2 digit day, then anything. -/
def ymdForm (cs : List Char) : Prop :=
  ∃ y m d rest, cs = y ++ '-' :: (m ++ '-' :: (d ++ rest)) ∧
    y.length = 4 ∧ y.all Char.isDigit = true ∧
    (m.length = 1 ∨ m.length = 2) ∧ m.all Char.isDigit = true ∧
    (d.length = 1 ∨ d.length = 2) ∧ d.all Char.isDigit = true

/-- The string `"01-03-2024"` of the spec's worked auto-detection example. -/
def exDate1 : List Char := ['0', '1', '-', '0', '3', '-', '2', '0', '2', '4']

/-- The string `"02-03-2024"` of the spec's worked auto-detection example. -/
def exDate2 : List Char := ['0', '2', '-', '0', '3', '-', '2', '0', '2', '4']

/-- The string `"Statement Period"` of the spec's worked auto-detection example. -/
def exStatementPeriod : List Char :=
  ['S', 't', 'a', 't', 'e', 'm', 'e', 'n', 't', ' ', 'P', 'e', 'r', 'i', 'o', 'd']

/-- The configured skip word `"statement"` after the caller's
`word.strip().upper()` normalisation. -/
def wSTATEMENT : List Char := ['S', 'T', 'A', 'T', 'E', 'M', 'E', 'N', 'T']

/-- A one-column table whose first column is
`["Statement Period", "", "01-03-2024", "02-03-2024", ""]`
(the spec's worked auto-detection example). -/
def exTableC2 : Table :=
  ⟨[Value.text ['A']],
   [[Value.text exStatementPeriod], [Value.text []],
    [Value.text exDate1], [Value.text exDate2], [Value.text []]]⟩

/-! ### Helper lemmas -/

theorem getD_drop {α : Type} (d : α) :
    ∀ (s : Nat) (l : List α) (k : Nat), (l.drop s).getD k d = l.getD (s + k) d := by
  intro s
  induction s with
  | zero => intro l k; simp
  | succ n ih =>
    intro l k
    cases l with
    | nil => simp
    | cons x xs =>
      simp only [List.drop_succ_cons, ih xs k]
      have : n + 1 + k = (n + k) + 1 := by omega
      rw [this]
      rfl

theorem getD_take {α : Type} (d : α) :
    ∀ (t : Nat) (l : List α) (i : Nat), i < t → (l.take t).getD i d = l.getD i d := by
  intro t
  induction t with
  | zero => intro l i h; omega
  | succ n ih =>
    intro l i h
    cases l with
    | nil => simp
    | cons x xs =>
      cases i with
      | zero => rfl
      | succ j =>
        simp only [List.take_succ_cons, List.getD_cons_succ]
        exact ih xs j (by omega)

theorem getD_map_lt {α β : Type} (f : α → β) (d : β) (d' : α) :
    ∀ (l : List α) (i : Nat), i < l.length → (l.map f).getD i d = f (l.getD i d') := by
  intro l
  induction l with
  | nil => intro i h; simp at h
  | cons x xs ih =>
    intro i h
    cases i with
    | zero => rfl
    | succ j =>
      simp only [List.map_cons, List.getD_cons_succ]
      exact ih j (by simpa using Nat.lt_of_succ_lt_succ h)

theorem any_congr_of_mem {α : Type} {f g : α → Bool} :
    ∀ (l : List α), (∀ a ∈ l, f a = g a) → l.any f = l.any g := by
  intro l
  induction l with
  | nil => intro _; rfl
  | cons x xs ih =>
    intro h
    simp only [List.any_cons, h x (List.mem_cons_self x xs),
      ih (fun a ha => h a (List.mem_cons_of_mem x ha))]

theorem firstTrueIdx_some {α : Type} (p : α → Bool) (d : α) :
    ∀ (l : List α) (k : Nat), firstTrueIdx p l = some k →
      k < l.length ∧ p (l.getD k d) = true ∧ ∀ j, j < k → p (l.getD j d) = false := by
  intro l
  induction l with
  | nil => intro k h; simp [firstTrueIdx] at h
  | cons x xs ih =>
    intro k h
    by_cases hx : p x = true
    · simp [firstTrueIdx, hx] at h
      subst h
      refine ⟨by simp, hx, ?_⟩
      intro j hj; omega
    · simp only [firstTrueIdx, Bool.not_eq_true] at hx
      simp only [firstTrueIdx, hx, if_neg (by simp [hx] : ¬ (p x = true))] at h
      rcases Option.map_eq_some'.mp h with ⟨k', hk', rfl⟩
      rcases ih k' hk' with ⟨h1, h2, h3⟩
      refine ⟨by simpa using Nat.succ_lt_succ h1, by simpa using h2, ?_⟩
      intro j hj
      cases j with
      | zero => simpa using hx
      | succ j' => simpa using h3 j' (by omega)

theorem firstTrueIdx_none {α : Type} (p : α → Bool) :
    ∀ (l : List α), firstTrueIdx p l = none ↔ ∀ x ∈ l, p x = false := by
  intro l
  induction l with
  | nil => simp [firstTrueIdx]
  | cons x xs ih =>
    constructor
    · intro h y hy
      by_cases hx : p x = true
      · simp [firstTrueIdx, hx] at h
      · rcases List.mem_cons.mp hy with rfl | hmem
        · simpa using hx
        · have hnone : firstTrueIdx p xs = none := by
            by_contra hne
            rcases Option.ne_none_iff_exists'.mp hne with ⟨k, hk⟩
            simp [firstTrueIdx, hx, hk] at h
          exact ih.mp hnone y hmem
    · intro h
      have hx : p x = false := h x (List.mem_cons_self x xs)
      have hxs : firstTrueIdx p xs = none :=
        ih.mpr (fun y hy => h y (List.mem_cons_of_mem x hy))
      simp [firstTrueIdx, hx, hxs]

theorem find_from_cons (skip_words : List (List Char)) (m : DetectionMethod)
    (i : Nat) (v : Value) (vs : List Value) :
    find_data_start_from skip_words m i (v :: vs) =
      if rowQualifies skip_words m v then some i
      else find_data_start_from skip_words m (i + 1) vs := by
  by_cases hb : isBlankValue v = true
  · simp [find_data_start_from, rowQualifies, hb]
  · replace hb : isBlankValue v = false := by simpa using hb
    by_cases hs : containsSkipWord skip_words (stripChars (strOfValue v)) = true
    · simp [find_data_start_from, rowQualifies, hb, hs]
    · replace hs : containsSkipWord skip_words (stripChars (strOfValue v)) = false := by
        simpa using hs
      cases m with
      | datePatterns =>
        by_cases hp : is_date_pattern (stripChars (strOfValue v)) = true
        · simp [find_data_start_from, rowQualifies, methodPred, hb, hs, hp]
        · replace hp : is_date_pattern (stripChars (strOfValue v)) = false := by simpa using hp
          simp [find_data_start_from, rowQualifies, methodPred, hb, hs, hp]
      | numericPatterns =>
        by_cases hp : is_numeric_pattern (stripChars (strOfValue v)) = true
        · simp [find_data_start_from, rowQualifies, methodPred, hb, hs, hp]
        · replace hp : is_numeric_pattern (stripChars (strOfValue v)) = false := by simpa using hp
          simp [find_data_start_from, rowQualifies, methodPred, hb, hs, hp]
      | nonEmptyAfterEmpty =>
        simp [find_data_start_from, rowQualifies, methodPred, hb, hs]
      | firstNonHeaderRow =>
        by_cases hp : looks_like_header (stripChars (strOfValue v)) = true
        · simp [find_data_start_from, rowQualifies, methodPred, hb, hs, hp]
        · replace hp : looks_like_header (stripChars (strOfValue v)) = false := by simpa using hp
          simp [find_data_start_from, rowQualifies, methodPred, hb, hs, hp]

theorem find_from_some (skip_words : List (List Char)) (m : DetectionMethod) :
    ∀ (l : List Value) (i r : Nat), find_data_start_from skip_words m i l = some r →
      ∃ k, k < l.length ∧ r = i + k ∧
        rowQualifies skip_words m (l.getD k Value.missing) = true ∧
        ∀ j, j < k → rowQualifies skip_words m (l.getD j Value.missing) = false := by
  intro l
  induction l with
  | nil => intro i r h; simp [find_data_start_from] at h
  | cons v vs ih =>
    intro i r h
    rw [find_from_cons] at h
    by_cases hq : rowQualifies skip_words m v = true
    · rw [if_pos hq] at h
      refine ⟨0, by simp, by simpa using (Option.some_inj.mp h).symm, by simpa using hq, ?_⟩
      intro j hj; omega
    · replace hq : rowQualifies skip_words m v = false := by simpa using hq
      rw [if_neg (by simp [hq])] at h
      rcases ih (i + 1) r h with ⟨k, hk1, hk2, hk3, hk4⟩
      refine ⟨k + 1, by simpa using Nat.succ_lt_succ hk1, by omega, by simpa using hk3, ?_⟩
      intro j hj
      cases j with
      | zero => simpa using hq
      | succ j' => simpa using hk4 j' (by omega)

theorem find_from_none (skip_words : List (List Char)) (m : DetectionMethod) :
    ∀ (l : List Value) (i : Nat),
      find_data_start_from skip_words m i l = none ↔
        ∀ v ∈ l, rowQualifies skip_words m v = false := by
  intro l
  induction l with
  | nil => intro i; simp [find_data_start_from]
  | cons v vs ih =>
    intro i
    rw [find_from_cons]
    by_cases hq : rowQualifies skip_words m v = true
    · rw [if_pos hq]
      constructor
      · intro h; exact absurd h (by simp)
      · intro h
        exact absurd (h v (List.mem_cons_self v vs)) (by simp [hq])
    · replace hq : rowQualifies skip_words m v = false := by simpa using hq
      rw [if_neg (by simp [hq])]
      constructor
      · intro h y hy
        rcases List.mem_cons.mp hy with rfl | hmem
        · exact hq
        · exact (ih (i + 1)).mp h y hmem
      · intro h
        exact (ih (i + 1)).mpr (fun y hy => h y (List.mem_cons_of_mem v hy))

theorem find_from_least (skip_words : List (List Char)) (m : DetectionMethod) :
    ∀ (l : List Value) (i k : Nat), k < l.length →
      rowQualifies skip_words m (l.getD k Value.missing) = true →
      (∀ j, j < k → rowQualifies skip_words m (l.getD j Value.missing) = false) →
      find_data_start_from skip_words m i l = some (i + k) := by
  intro l
  induction l with
  | nil => intro i k hk; simp at hk
  | cons v vs ih =>
    intro i k hk hq hleast
    rw [find_from_cons]
    cases k with
    | zero =>
      have hv : rowQualifies skip_words m v = true := by simpa using hq
      rw [if_pos hv]
      simp
    | succ k' =>
      have hv : rowQualifies skip_words m v = false := by
        simpa using hleast 0 (Nat.succ_pos k')
      rw [if_neg (by simp [hv])]
      have := ih (i + 1) k' (by simpa using Nat.lt_of_succ_lt_succ hk)
        (by simpa using hq)
        (fun j hj => by simpa using hleast (j + 1) (by omega))
      rw [this]
      congr 1
      omega

theorem rowQualifies_eq_CI (skip_words : List (List Char)) (m : DetectionMethod)
    (v : Value) (hsw : ∀ w ∈ skip_words, toUpperStr w = w) :
    rowQualifies skip_words m v = rowQualifiesCI skip_words m v := by
  have h : containsSkipWord skip_words (stripChars (strOfValue v)) =
      (skip_words.any fun w => caseInsensitiveContains w (stripChars (strOfValue v))) := by
    unfold containsSkipWord
    apply any_congr_of_mem
    intro w hw
    unfold caseInsensitiveContains
    rw [hsw w hw]
  unfold rowQualifies rowQualifiesCI
  rw [h]

theorem getD_mem {α : Type} (d : α) :
    ∀ (l : List α) (n : Nat), n < l.length → l.getD n d ∈ l := by
  intro l
  induction l with
  | nil => intro n h; simp at h
  | cons x xs ih =>
    intro n h
    cases n with
    | zero => exact List.mem_cons_self x xs
    | succ k =>
      exact List.mem_cons_of_mem x (ih k (by simpa using Nat.lt_of_succ_lt_succ h))

theorem rowQualifies_true_iff (skip_words : List (List Char)) (m : DetectionMethod)
    (v : Value) :
    rowQualifies skip_words m v = true ↔
      isBlankValue v = false ∧
      containsSkipWord skip_words (stripChars (strOfValue v)) = false ∧
      methodPred m (stripChars (strOfValue v)) = true := by
  unfold rowQualifies
  constructor
  · intro h
    rcases Bool.and_eq_true_iff.mp h with ⟨h12, h3⟩
    rcases Bool.and_eq_true_iff.mp h12 with ⟨h1, h2⟩
    exact ⟨by simpa using h1, by simpa using h2, h3⟩
  · intro ⟨h1, h2, h3⟩
    simp [h1, h2, h3]

/-! ### Claim theorems -/

/-- C5: detection failure is soft — when no row of the first column passes
the blank test, the skip-word test and the selected method's predicate
combined, `apply_auto_detection` returns the original table unchanged
together with the detection-failed warning signal (for either cut flag),
never a hard error. -/
theorem detection_failure_is_soft (df : Table) (skip_words : List (List Char))
    (m : DetectionMethod) (cut : Bool)
    (hrows : df.rows.isEmpty = false) (hlabels : df.labels.isEmpty = false)
    (hfail : ∀ v ∈ first_col_values df, rowQualifies skip_words m v = false) :
    apply_auto_detection df skip_words m cut = (df, DetectOutcome.detectionFailed) := by
  have hnone : find_data_start_dynamic (first_col_values df) skip_words m = none :=
    (find_from_none skip_words m (first_col_values df) 0).mpr hfail
  simp [apply_auto_detection, hrows, hlabels, hnone]

/-- Witness for C5: a one-row table whose only cell is non-date text makes
date-pattern detection fail softly. -/
theorem detection_failure_is_soft_witness :
    apply_auto_detection ⟨[Value.text ['A']], [[Value.text ['h', 'i']]]⟩ []
        DetectionMethod.datePatterns true =
      (⟨[Value.text ['A']], [[Value.text ['h', 'i']]]⟩, DetectOutcome.detectionFailed) :=
  detection_failure_is_soft _ _ _ _ (by decide) (by decide) (by decide)

/-- C6: invalid date range handling — with a datetime column present, a range
whose start date lies strictly after its end date makes the filter return the
original table unchanged with the invalid-range error, and the bound check
happens before any filtering: a valid range is the only way to reach the
filtered outcome. -/
theorem filter_invalid_range_spec (df : Table) (j : Nat) (s e : Int)
    (hdt : datetime_cols df ≠ []) :
    (e < s → filter_by_date_range df j s e false = (df, FilterOutcome.invalidRange)) ∧
    (s ≤ e → (filter_by_date_range df j s e false).2 =
      FilterOutcome.filtered df.rows.length
        (filter_by_date_range df j s e false).1.rows.length) := by
  constructor
  · intro hlt
    simp only [filter_by_date_range, if_neg hdt, Bool.false_eq_true, if_false,
      if_neg (by omega : ¬ s ≤ e)]
  · intro hle
    simp [filter_by_date_range, hdt, hle]

/-- Witness for C6: a single timestamp row, range 1..0 rejected, range 0..1
filtered. -/
theorem filter_invalid_range_spec_witness :
    (filter_by_date_range ⟨[Value.text ['D']], [[Value.ts 0]]⟩ 0 1 0 false =
      (⟨[Value.text ['D']], [[Value.ts 0]]⟩, FilterOutcome.invalidRange)) ∧
    (filter_by_date_range ⟨[Value.text ['D']], [[Value.ts 0]]⟩ 0 0 1 false).2 =
      FilterOutcome.filtered 1
        (filter_by_date_range ⟨[Value.text ['D']], [[Value.ts 0]]⟩ 0 0 1 false).1.rows.length := by
  refine ⟨(filter_invalid_range_spec _ 0 1 0 (by decide)).1 (by decide), ?_⟩
  exact (filter_invalid_range_spec ⟨[Value.text ['D']], [[Value.ts 0]]⟩ 0 0 1 (by decide)).2
    (by decide)

/-- C10: when a table has no datetime-typed column, the date-range filter
stage returns it unchanged with only the informational no-datetime signal,
whatever the requested dates (even an inverted range) and skip flag — the
stage is a no-op and no date range is evaluated. -/
theorem filter_no_datetime_noop (df : Table) (j : Nat) (s e : Int) (skip : Bool)
    (hdt : datetime_cols df = []) :
    filter_by_date_range df j s e skip = (df, FilterOutcome.noDatetimeCols) := by
  simp [filter_by_date_range, hdt]

/-- Witness for C10: a text-only table with an inverted range is returned
unchanged with the no-datetime signal. -/
theorem filter_no_datetime_noop_witness :
    filter_by_date_range ⟨[Value.text ['A']], [[Value.text ['x']]]⟩ 0 5 0 false =
      (⟨[Value.text ['A']], [[Value.text ['x']]]⟩, FilterOutcome.noDatetimeCols) :=
  filter_no_datetime_noop _ 0 5 0 false (by decide)

/-- C7: manual region selection — the widget bounds enforce
`0 ≤ start ≤ end ≤ rowCount-1` and an out-of-range request is rejected with a
range error (in particular start=2, end=1 on a 10-row table); for a valid
range the selection returns exactly `end-start+1` rows, in original order,
with unchanged column labels. -/
theorem manual_selection_spec :
    (∀ (df : Table) (s e : Nat), s ≤ e → e + 1 ≤ df.rows.length →
      manual_data_selection_sidebar df s e = (sliceRows df s e, ManualOutcome.selected) ∧
      (sliceRows df s e).labels = df.labels ∧
      (sliceRows df s e).rows.length = e - s + 1 ∧
      ∀ i, i < e - s + 1 →
        (sliceRows df s e).rows.getD i [] = df.rows.getD (s + i) []) ∧
    (∀ df : Table, df.rows.length = 10 →
      manual_data_selection_sidebar df 2 1 = (df, ManualOutcome.rangeError)) := by
  constructor
  · intro df s e hse hlen
    refine ⟨?_, rfl, ?_, ?_⟩
    · unfold manual_data_selection_sidebar
      rw [if_pos ⟨by omega, hse, hlen⟩]
    · simp only [sliceRows, List.length_take, List.length_drop]
      omega
    · intro i hi
      simp only [sliceRows]
      rw [getD_take _ _ _ _ (by omega), getD_drop]
  · intro df h10
    unfold manual_data_selection_sidebar
    rw [if_neg (by omega)]

/-- Witness for C7: a valid selection on a 4-row table and the rejected
start=2 end=1 request on a 10-row table. -/
theorem manual_selection_spec_witness :
    (manual_data_selection_sidebar
        ⟨[Value.text ['A']],
         [[Value.num 0], [Value.num 1], [Value.num 2], [Value.num 3]]⟩ 1 2 =
      (⟨[Value.text ['A']], [[Value.num 1], [Value.num 2]]⟩, ManualOutcome.selected)) ∧
    (manual_data_selection_sidebar
        ⟨[Value.text ['A']], List.replicate 10 [Value.missing]⟩ 2 1 =
      (⟨[Value.text ['A']], List.replicate 10 [Value.missing]⟩, ManualOutcome.rangeError)) := by
  constructor
  · have h := (manual_selection_spec.1
      ⟨[Value.text ['A']], [[Value.num 0], [Value.num 1], [Value.num 2], [Value.num 3]]⟩
      1 2 (by decide) (by decide)).1
    rw [h]
    decide
  · exact manual_selection_spec.2 ⟨[Value.text ['A']], List.replicate 10 [Value.missing]⟩
      (by decide)

/-- C1: auto-detect data-start — for every first column, skip-word list (as
configured: already upper-case, which the `word.strip().upper()` normalisation
guarantees) and detection method, a returned data-start index is the earliest
row whose value survives the blank test, whose trimmed text contains no skip
word under case-insensitive substring comparison (in particular a row
containing a skip word is never returned), and which satisfies the selected
method's predicate; if no row qualifies, detection reports failure. -/
theorem find_data_start_dynamic_spec (col : List Value)
    (skip_words : List (List Char)) (m : DetectionMethod)
    (hsw : ∀ w ∈ skip_words, toUpperStr w = w) :
    (∀ i, find_data_start_dynamic col skip_words m = some i →
      i < col.length ∧
      isBlankValue (col.getD i Value.missing) = false ∧
      (∀ w ∈ skip_words,
        caseInsensitiveContains w
          (stripChars (strOfValue (col.getD i Value.missing))) = false) ∧
      methodPred m (stripChars (strOfValue (col.getD i Value.missing))) = true ∧
      ∀ j, j < i → rowQualifiesCI skip_words m (col.getD j Value.missing) = false) ∧
    (find_data_start_dynamic col skip_words m = none →
      ∀ j, j < col.length →
        rowQualifiesCI skip_words m (col.getD j Value.missing) = false) := by
  constructor
  · intro i hfind
    rcases find_from_some skip_words m col 0 i hfind with ⟨k, hk1, hk2, hk3, hk4⟩
    have hik : i = k := by omega
    subst hik
    rcases (rowQualifies_true_iff skip_words m _).mp hk3 with ⟨hb, hskip, hpred⟩
    refine ⟨hk1, hb, ?_, hpred, ?_⟩
    · intro w hw
      have hall := List.any_eq_false.mp (by simpa [containsSkipWord] using hskip)
      have := hall w hw
      unfold caseInsensitiveContains
      rw [hsw w hw]
      simpa using this
    · intro j hj
      rw [← rowQualifies_eq_CI skip_words m _ hsw]
      exact hk4 j hj
  · intro hfind j hj
    rw [← rowQualifies_eq_CI skip_words m _ hsw]
    exact (find_from_none skip_words m col 0).mp hfind (col.getD j Value.missing)
      (getD_mem Value.missing col j hj)

/-- Witness for C1: on the worked example's first column with skip word
`"STATEMENT"` and the date-pattern method, index 2 is returned and satisfies
the characterisation. -/
theorem find_data_start_dynamic_spec_witness :
    (first_col_values exTableC2).getD 2 Value.missing = Value.text exDate1 ∧
    isBlankValue ((first_col_values exTableC2).getD 2 Value.missing) = false ∧
    (∀ w ∈ [wSTATEMENT],
      caseInsensitiveContains w
        (stripChars (strOfValue ((first_col_values exTableC2).getD 2 Value.missing))) = false) ∧
    methodPred DetectionMethod.datePatterns
      (stripChars (strOfValue ((first_col_values exTableC2).getD 2 Value.missing))) = true ∧
    ∀ j, j < 2 →
      rowQualifiesCI [wSTATEMENT] DetectionMethod.datePatterns
        ((first_col_values exTableC2).getD j Value.missing) = false := by
  have h := (find_data_start_dynamic_spec (first_col_values exTableC2) [wSTATEMENT]
    DetectionMethod.datePatterns (by decide)).1 2 (by decide)
  exact ⟨by decide, h.2.1, h.2.2.1, h.2.2.2.1, h.2.2.2.2⟩

/-- C2: auto-detect region end and slice — whenever a data-start `s` is
found, the result is exactly the inclusive slice `[s, e]` of the input with
column labels and row contents unchanged, where `e` is the last row when
cut-at-blank is disabled or no blank follows `s`, and the row immediately
before the first blank first-column row at or after `s` otherwise; on the
spec's example column `["Statement Period", "", "01-03-2024", "02-03-2024",
""]` with skip word `"statement"`, the date-pattern method and cut-at-blank
enabled, the region is rows `[2, 3]`. -/
theorem apply_auto_detection_region_spec :
    (∀ (df : Table) (skip_words : List (List Char)) (m : DetectionMethod)
        (cut : Bool) (s : Nat),
      df.rows.isEmpty = false → df.labels.isEmpty = false →
      find_data_start_dynamic (first_col_values df) skip_words m = some s →
      ∃ e, s ≤ e ∧ e < df.rows.length ∧
        apply_auto_detection df skip_words m cut =
          (⟨df.labels, (df.rows.drop s).take (e + 1 - s)⟩, DetectOutcome.detected s e) ∧
        (cut = false → e = df.rows.length - 1) ∧
        (cut = true →
          ((∀ j, s ≤ j → j < df.rows.length →
              isBlankValue ((first_col_values df).getD j Value.missing) = false) →
            e = df.rows.length - 1) ∧
          (∀ j0, s ≤ j0 → j0 < df.rows.length →
            isBlankValue ((first_col_values df).getD j0 Value.missing) = true →
            (∀ j, s ≤ j → j < j0 →
              isBlankValue ((first_col_values df).getD j Value.missing) = false) →
            e = j0 - 1)) ∧
        ((df.rows.drop s).take (e + 1 - s)).length = e + 1 - s ∧
        (∀ i, i < e + 1 - s →
          ((df.rows.drop s).take (e + 1 - s)).getD i [] = df.rows.getD (s + i) [])) ∧
    apply_auto_detection exTableC2 [wSTATEMENT] DetectionMethod.datePatterns true =
      (⟨exTableC2.labels, [[Value.text exDate1], [Value.text exDate2]]⟩,
        DetectOutcome.detected 2 3) := by
  constructor
  · intro df skip_words m cut s hrows hlabels hfind
    have hcol : (first_col_values df).length = df.rows.length := by
      simp [first_col_values]
    obtain ⟨k0, hk01, hk02, hk03, _⟩ :=
      find_from_some skip_words m (first_col_values df) 0 s hfind
    have hs_lt : s < df.rows.length := by omega
    have hs_nonblank :
        isBlankValue ((first_col_values df).getD s Value.missing) = false := by
      have := ((rowQualifies_true_iff skip_words m _).mp hk03).1
      have hsk : s = k0 := by omega
      rw [hsk]; exact this
    have hn_pos : 0 < df.rows.length := by omega
    cases cut with
    | false =>
      refine ⟨df.rows.length - 1, by omega, by omega, ?_, fun _ => rfl, ?_, ?_, ?_⟩
      · simp [apply_auto_detection, hrows, hlabels, hfind, sliceRows]
      · intro h; cases h
      · simp only [List.length_take, List.length_drop]; omega
      · intro i hi
        rw [getD_take _ _ _ _ hi, getD_drop]
    | true =>
      cases hidx : firstTrueIdx isBlankValue ((first_col_values df).drop s) with
      | none =>
        have hnoblank := (firstTrueIdx_none isBlankValue _).mp hidx
        refine ⟨df.rows.length - 1, by omega, by omega, ?_, ?_, ?_, ?_, ?_⟩
        · simp [apply_auto_detection, hrows, hlabels, hfind, hidx, sliceRows]
        · intro h; simp at h
        · refine fun _ => ⟨fun _ => rfl, ?_⟩
          intro j0 hj0s hj0n hblank _
          exfalso
          have hmem : (first_col_values df).getD j0 Value.missing ∈
              (first_col_values df).drop s := by
            have hrw : ((first_col_values df).drop s).getD (j0 - s) Value.missing =
                (first_col_values df).getD j0 Value.missing := by
              rw [getD_drop]
              congr 1
              omega
            rw [← hrw]
            apply getD_mem
            simp only [List.length_drop]
            omega
          have := hnoblank _ hmem
          rw [this] at hblank
          cases hblank
        · simp only [List.length_take, List.length_drop]; omega
        · intro i hi
          rw [getD_take _ _ _ _ hi, getD_drop]
      | some k =>
        obtain ⟨hk_lt, hk_blank, hk_least⟩ :=
          firstTrueIdx_some isBlankValue Value.missing _ k hidx
        rw [List.length_drop] at hk_lt
        have hk_blank' :
            isBlankValue ((first_col_values df).getD (s + k) Value.missing) = true := by
          rw [getD_drop] at hk_blank
          exact hk_blank
        have hk_least' : ∀ j, j < k →
            isBlankValue ((first_col_values df).getD (s + j) Value.missing) = false := by
          intro j hj
          have := hk_least j hj
          rw [getD_drop] at this
          exact this
        have hk_pos : 0 < k := by
          rcases Nat.eq_zero_or_pos k with hk0 | hk0
          · exfalso
            rw [hk0, Nat.add_zero] at hk_blank'
            rw [hk_blank'] at hs_nonblank
            cases hs_nonblank
          · exact hk0
        refine ⟨s + k - 1, by omega, by omega, ?_, ?_, ?_, ?_, ?_⟩
        · simp [apply_auto_detection, hrows, hlabels, hfind, hidx, sliceRows]
        · intro h; simp at h
        · refine fun _ => ⟨?_, ?_⟩
          · intro hall
            exfalso
            have := hall (s + k) (by omega) (by omega)
            rw [this] at hk_blank'
            cases hk_blank'
          · intro j0 hj0s hj0n hblank hleast
            have h1 : j0 ≤ s + k := by
              by_contra hgt
              have := hleast (s + k) (by omega) (by omega)
              rw [this] at hk_blank'
              cases hk_blank'
            have h2 : s + k ≤ j0 := by
              by_contra hgt
              have hjk : j0 - s < k := by omega
              have := hk_least' (j0 - s) hjk
              have hrw : s + (j0 - s) = j0 := by omega
              rw [hrw] at this
              rw [this] at hblank
              cases hblank
            omega
        · simp only [List.length_take, List.length_drop]; omega
        · intro i hi
          rw [getD_take _ _ _ _ hi, getD_drop]
  · decide

/-- Witness for C2: the general characterisation applied to the spec's
worked example (start 2, cut-at-blank enabled). -/
theorem apply_auto_detection_region_spec_witness :
    ∃ e, 2 ≤ e ∧ e < exTableC2.rows.length ∧
      apply_auto_detection exTableC2 [wSTATEMENT] DetectionMethod.datePatterns true =
        (⟨exTableC2.labels, (exTableC2.rows.drop 2).take (e + 1 - 2)⟩,
          DetectOutcome.detected 2 e) ∧
      (true = false → e = exTableC2.rows.length - 1) ∧
      (true = true →
        ((∀ j, 2 ≤ j → j < exTableC2.rows.length →
            isBlankValue ((first_col_values exTableC2).getD j Value.missing) = false) →
          e = exTableC2.rows.length - 1) ∧
        (∀ j0, 2 ≤ j0 → j0 < exTableC2.rows.length →
          isBlankValue ((first_col_values exTableC2).getD j0 Value.missing) = true →
          (∀ j, 2 ≤ j → j < j0 →
            isBlankValue ((first_col_values exTableC2).getD j Value.missing) = false) →
          e = j0 - 1)) ∧
      ((exTableC2.rows.drop 2).take (e + 1 - 2)).length = e + 1 - 2 ∧
      (∀ i, i < e + 1 - 2 →
        ((exTableC2.rows.drop 2).take (e + 1 - 2)).getD i [] =
          exTableC2.rows.getD (2 + i) []) :=
  apply_auto_detection_region_spec.1 exTableC2 [wSTATEMENT]
    DetectionMethod.datePatterns true 2 (by decide) (by decide) (by decide)

theorem listMaxNat_le (x : Nat) :
    ∀ l : List Nat, x ∈ l → x ≤ listMaxNat l := by
  intro l
  induction l with
  | nil => intro h; simp at h
  | cons y ys ih =>
    intro h
    rcases List.mem_cons.mp h with rfl | hmem
    · simp only [listMaxNat, List.foldr_cons]
      exact Nat.le_max_left _ _
    · have := ih hmem
      simp only [listMaxNat, List.foldr_cons] at *
      exact le_trans this (Nat.le_max_right _ _)

theorem listMaxNat_mem :
    ∀ l : List Nat, l ≠ [] → listMaxNat l ∈ l := by
  intro l
  induction l with
  | nil => intro h; exact absurd rfl h
  | cons y ys ih =>
    intro _
    rcases List.eq_nil_or_concat ys with rfl | _
    · simp [listMaxNat]
    · by_cases hmax : listMaxNat ys ≤ y
      · have : listMaxNat (y :: ys) = y := by
          simp only [listMaxNat, List.foldr_cons] at *
          exact Nat.max_eq_left hmax
        rw [this]
        exact List.mem_cons_self y ys
      · have hne : ys ≠ [] := by
          intro h
          rw [h] at hmax
          simp [listMaxNat] at hmax
        have : listMaxNat (y :: ys) = listMaxNat ys := by
          simp only [listMaxNat, List.foldr_cons] at *
          exact Nat.max_eq_right (Nat.le_of_not_le hmax)
        rw [this]
        exact List.mem_cons_of_mem y (ih hne)

theorem firstEqIdx_spec (t : Nat) :
    ∀ l : List Nat, t ∈ l →
      firstEqIdx t l < l.length ∧ l.getD (firstEqIdx t l) 0 = t ∧
        ∀ j, j < firstEqIdx t l → l.getD j 0 ≠ t := by
  intro l
  induction l with
  | nil => intro h; simp at h
  | cons y ys ih =>
    intro hmem
    by_cases hy : y = t
    · refine ⟨by simp [firstEqIdx, hy], by simp [firstEqIdx, hy], ?_⟩
      intro j hj
      simp [firstEqIdx, hy] at hj
    · have hmem' : t ∈ ys := by
        rcases List.mem_cons.mp hmem with rfl | h
        · exact absurd rfl hy
        · exact h
      obtain ⟨h1, h2, h3⟩ := ih hmem'
      have hidx : firstEqIdx t (y :: ys) = firstEqIdx t ys + 1 := by
        simp [firstEqIdx, hy]
      refine ⟨?_, ?_, ?_⟩
      · rw [hidx]; simpa using Nat.succ_lt_succ h1
      · rw [hidx]; simpa using h2
      · intro j hj
        rw [hidx] at hj
        cases j with
        | zero => simpa using hy
        | succ j' =>
          simpa using h3 j' (by omega)

/-- C9: spreadsheet header guess — the loader counts the non-null cells of
the first five raw rows (read with no header assumption), picks the row with
the maximum count breaking ties by the lowest row index, and re-reads the
sheet with that row as the label row: that row becomes the column labels and
the rows after it the data rows. -/
theorem read_uploaded_file_basic_spec (raw : List (List Value)) (hne : raw ≠ []) :
    likely_header_row raw < ((raw.take 5).map countNonNull).length ∧
    likely_header_row raw < min 5 raw.length ∧
    (∀ j, j < ((raw.take 5).map countNonNull).length →
      ((raw.take 5).map countNonNull).getD j 0 ≤
        ((raw.take 5).map countNonNull).getD (likely_header_row raw) 0) ∧
    (∀ j, j < likely_header_row raw →
      ((raw.take 5).map countNonNull).getD j 0 <
        ((raw.take 5).map countNonNull).getD (likely_header_row raw) 0) ∧
    read_uploaded_file_basic raw =
      ⟨raw.getD (likely_header_row raw) [], raw.drop (likely_header_row raw + 1)⟩ := by
  set cnts := (raw.take 5).map countNonNull with hcnts
  have hcne : cnts ≠ [] := by
    rw [hcnts]
    simp only [ne_eq, List.map_eq_nil_iff, List.take_eq_nil_iff]
    intro h
    rcases h with h5 | hnil
    · cases h5
    · exact hne hnil
  have hmem := listMaxNat_mem cnts hcne
  obtain ⟨h1, h2, h3⟩ := firstEqIdx_spec (listMaxNat cnts) cnts hmem
  have hidx : likely_header_row raw = firstEqIdx (listMaxNat cnts) cnts := by
    rw [likely_header_row, idxmax, hcnts]
  refine ⟨by rw [hidx]; exact h1, ?_, ?_, ?_, rfl⟩
  · rw [hidx]
    have : cnts.length = min 5 raw.length := by
      rw [hcnts]
      simp [List.length_take]
    omega
  · intro j hj
    rw [hidx, h2]
    exact listMaxNat_le _ cnts (getD_mem 0 cnts j hj)
  · intro j hj
    rw [hidx] at hj
    rw [hidx, h2]
    have hlt := h3 j hj
    have hle : cnts.getD j 0 ≤ listMaxNat cnts :=
      listMaxNat_le _ cnts (getD_mem 0 cnts j (by omega))
    omega

/-- Witness for C9: four raw rows whose second row has the most non-null
cells; it becomes the header and the remaining rows the data. -/
theorem read_uploaded_file_basic_spec_witness :
    likely_header_row
        [[Value.missing, Value.missing], [Value.text ['a'], Value.text ['b']],
         [Value.num 1, Value.missing], [Value.num 2, Value.num 3]] <
      min 5 4 ∧
    read_uploaded_file_basic
        [[Value.missing, Value.missing], [Value.text ['a'], Value.text ['b']],
         [Value.num 1, Value.missing], [Value.num 2, Value.num 3]] =
      ⟨[Value.text ['a'], Value.text ['b']],
       [[Value.num 1, Value.missing], [Value.num 2, Value.num 3]]⟩ := by
  have h := read_uploaded_file_basic_spec
    [[Value.missing, Value.missing], [Value.text ['a'], Value.text ['b']],
     [Value.num 1, Value.missing], [Value.num 2, Value.num 3]] (by decide)
  refine ⟨h.2.1, ?_⟩
  rw [h.2.2.2.2]
  decide

theorem value_in_range_iff (v : Value) (lo hi : Int) :
    (value_ge v lo && value_le v hi) = true ↔
      ∃ t, v = Value.ts t ∧ lo ≤ t ∧ t ≤ hi := by
  cases v with
  | ts x =>
    constructor
    · intro h
      rcases Bool.and_eq_true_iff.mp h with ⟨h1, h2⟩
      exact ⟨x, rfl, of_decide_eq_true h1, of_decide_eq_true h2⟩
    · rintro ⟨t, ht, h1, h2⟩
      cases ht
      simp [value_ge, value_le, h1, h2]
  | missing => simp [value_ge]
  | text s => simp [value_ge]
  | num n => simp [value_ge]

/-- C4: range-filter inclusivity — for a datetime column and a range with
start ≤ end, the filter reports original and kept counts, keeps the labels,
and retains exactly the rows whose value `v` satisfies `lower ≤ v ≤ upper`
with `lower` the start date at 00:00:00 and `upper` the end date plus one day
minus one second (end-of-day inclusive); a row at the end date's 23:59:59 is
retained, a row at the next day's 00:00:00 is not, and rows with a missing
value are excluded. -/
theorem filter_by_date_range_inclusive (df : Table) (j : Nat) (s e : Int)
    (hj : j ∈ datetime_cols df) (hse : s ≤ e) :
    (filter_by_date_range df j s e false).1.labels = df.labels ∧
    (filter_by_date_range df j s e false).2 =
      FilterOutcome.filtered df.rows.length
        (filter_by_date_range df j s e false).1.rows.length ∧
    (∀ r, r ∈ (filter_by_date_range df j s e false).1.rows ↔
      r ∈ df.rows ∧ ∃ t, r.getD j Value.missing = Value.ts t ∧
        s * secondsPerDay ≤ t ∧ t ≤ (e + 1) * secondsPerDay - 1) ∧
    (∀ r, r ∈ df.rows →
      r.getD j Value.missing = Value.ts (e * secondsPerDay + 86399) →
      r ∈ (filter_by_date_range df j s e false).1.rows) ∧
    (∀ r, r.getD j Value.missing = Value.ts ((e + 1) * secondsPerDay) →
      r ∉ (filter_by_date_range df j s e false).1.rows) ∧
    (∀ r, r.getD j Value.missing = Value.missing →
      r ∉ (filter_by_date_range df j s e false).1.rows) := by
  have hdt : datetime_cols df ≠ [] := List.ne_nil_of_mem hj
  have hunfold : filter_by_date_range df j s e false =
      (⟨df.labels,
        df.rows.filter (fun r =>
          value_ge (r.getD j Value.missing) (s * secondsPerDay) &&
            value_le (r.getD j Value.missing) ((e + 1) * secondsPerDay - 1))⟩,
       FilterOutcome.filtered df.rows.length
         (df.rows.filter (fun r =>
           value_ge (r.getD j Value.missing) (s * secondsPerDay) &&
             value_le (r.getD j Value.missing) ((e + 1) * secondsPerDay - 1))).length) := by
    simp [filter_by_date_range, hdt, hse]
  rw [hunfold]
  have hmem : ∀ r, r ∈ df.rows.filter (fun r =>
      value_ge (r.getD j Value.missing) (s * secondsPerDay) &&
        value_le (r.getD j Value.missing) ((e + 1) * secondsPerDay - 1)) ↔
      r ∈ df.rows ∧ ∃ t, r.getD j Value.missing = Value.ts t ∧
        s * secondsPerDay ≤ t ∧ t ≤ (e + 1) * secondsPerDay - 1 := by
    intro r
    rw [List.mem_filter, value_in_range_iff]
  refine ⟨rfl, rfl, hmem, ?_, ?_, ?_⟩
  · intro r hr hts
    apply (hmem r).mpr
    refine ⟨hr, e * secondsPerDay + 86399, hts, ?_, ?_⟩
    · simp only [secondsPerDay]
      omega
    · simp only [secondsPerDay]
      omega
  · intro r hts hmem'
    rcases ((hmem r).mp hmem').2 with ⟨t, ht, _, hhi⟩
    rw [hts] at ht
    have : t = (e + 1) * secondsPerDay := by
      cases ht
      rfl
    rw [this] at hhi
    simp only [secondsPerDay] at hhi
    omega
  · intro r hmiss hmem'
    rcases ((hmem r).mp hmem').2 with ⟨t, ht, _, _⟩
    rw [hmiss] at ht
    cases ht

/-- Witness for C4: a three-row table (end-of-day row, next-midnight row,
missing row) on the range 0..0 keeps exactly the end-of-day row. -/
theorem filter_by_date_range_inclusive_witness :
    (filter_by_date_range
        ⟨[Value.text ['D']], [[Value.ts 86399], [Value.ts 86400], [Value.missing]]⟩
        0 0 0 false).1.rows = [[Value.ts 86399]] ∧
    ([Value.ts 86399] : List Value) ∈
      (filter_by_date_range
        ⟨[Value.text ['D']], [[Value.ts 86399], [Value.ts 86400], [Value.missing]]⟩
        0 0 0 false).1.rows ∧
    ([Value.ts 86400] : List Value) ∉
      (filter_by_date_range
        ⟨[Value.text ['D']], [[Value.ts 86399], [Value.ts 86400], [Value.missing]]⟩
        0 0 0 false).1.rows ∧
    ([Value.missing] : List Value) ∉
      (filter_by_date_range
        ⟨[Value.text ['D']], [[Value.ts 86399], [Value.ts 86400], [Value.missing]]⟩
        0 0 0 false).1.rows := by
  have h := filter_by_date_range_inclusive
    ⟨[Value.text ['D']], [[Value.ts 86399], [Value.ts 86400], [Value.missing]]⟩
    0 0 0 (by decide) (by decide)
  refine ⟨by decide, ?_, ?_, ?_⟩
  · exact h.2.2.2.1 [Value.ts 86399] (by decide) (by decide)
  · exact h.2.2.2.2.1 [Value.ts 86400] (by decide)
  · exact h.2.2.2.2.2 [Value.missing] (by decide)

theorem length_applyAt (f : Value → Value) :
    ∀ (j : Nat) (r : List Value), (applyAt f j r).length = r.length := by
  intro j r
  induction r generalizing j with
  | nil => cases j <;> rfl
  | cons v vs ih =>
    cases j with
    | zero => rfl
    | succ n => simpa [applyAt] using ih n

theorem getD_applyAt_ne (f : Value → Value) (d : Value) :
    ∀ (j k : Nat) (r : List Value), k ≠ j →
      (applyAt f j r).getD k d = r.getD k d := by
  intro j k r
  induction r generalizing j k with
  | nil => intro _; cases j <;> rfl
  | cons v vs ih =>
    intro hne
    cases j with
    | zero =>
      cases k with
      | zero => exact absurd rfl hne
      | succ n => rfl
    | succ jn =>
      cases k with
      | zero => rfl
      | succ kn =>
        simpa [applyAt] using ih jn kn (by omega)

theorem labelIndex_getD :
    ∀ (labels : List Value) (c : Value) (j : Nat) (d : Value),
      labelIndex labels c = j → j < labels.length → labels.getD j d = c := by
  intro labels
  induction labels with
  | nil => intro c j d _ h; simp at h
  | cons l ls ih =>
    intro c j d hidx hlt
    by_cases hl : l = c
    · have : j = 0 := by simpa [labelIndex, hl] using hidx.symm
      subst this
      simpa using hl
    · have hidx' : labelIndex ls c + 1 = j := by simpa [labelIndex, hl] using hidx
      cases j with
      | zero => omega
      | succ jn =>
        have : labelIndex ls c = jn := by omega
        simpa using ih c jn d this (by simpa using Nat.lt_of_succ_lt_succ hlt)

theorem setColumn_cell_preserved (parse : Value → Value) (df : Table) (c : Value)
    (j : Nat) (hj : j < df.labels.length)
    (hne : df.labels.getD j Value.missing ≠ c) :
    (setColumn parse df c).labels = df.labels ∧
    (setColumn parse df c).rows.length = df.rows.length ∧
    ∀ i, i < df.rows.length →
      ((setColumn parse df c).rows.getD i []).getD j Value.missing =
        (df.rows.getD i []).getD j Value.missing := by
  refine ⟨rfl, by simp [setColumn], ?_⟩
  intro i hi
  show ((df.rows.map (applyAt parse (labelIndex df.labels c))).getD i []).getD j
      Value.missing = (df.rows.getD i []).getD j Value.missing
  rw [getD_map_lt (applyAt parse (labelIndex df.labels c)) [] [] df.rows i hi]
  apply getD_applyAt_ne
  intro heq
  exact hne (labelIndex_getD df.labels c j Value.missing heq.symm hj)

theorem foldl_setColumn_shape (parse : Value → Value) :
    ∀ (cols : List Value) (df : Table),
      (cols.foldl (setColumn parse) df).labels = df.labels ∧
      (cols.foldl (setColumn parse) df).rows.length = df.rows.length := by
  intro cols
  induction cols with
  | nil => intro df; exact ⟨rfl, rfl⟩
  | cons c cs ih =>
    intro df
    obtain ⟨h1, h2⟩ := ih (setColumn parse df c)
    refine ⟨?_, ?_⟩
    · rw [List.foldl_cons, h1]
      rfl
    · rw [List.foldl_cons, h2]
      simp [setColumn]

theorem foldl_setColumn_untouched (parse : Value → Value) :
    ∀ (cols : List Value) (df : Table) (j : Nat),
      j < df.labels.length → df.labels.getD j Value.missing ∉ cols →
      ∀ i, i < df.rows.length →
        ((cols.foldl (setColumn parse) df).rows.getD i []).getD j Value.missing =
          (df.rows.getD i []).getD j Value.missing := by
  intro cols
  induction cols with
  | nil => intro df j _ _ i _; rfl
  | cons c cs ih =>
    intro df j hj hnot i hi
    have hne : df.labels.getD j Value.missing ≠ c := by
      intro h
      exact hnot (h ▸ List.mem_cons_self c cs)
    obtain ⟨hl, hlen, hcell⟩ := setColumn_cell_preserved parse df c j hj hne
    rw [List.foldl_cons]
    have hstep := ih (setColumn parse df c) j (by rw [hl]; exact hj)
      (by rw [hl]; exact fun h => hnot (List.mem_cons_of_mem c h))
      i (by rw [hlen]; exact hi)
    rw [hstep, hcell i hi]

/-- Counterexample for C3 as stated: the conversion loop assigns
`df[col] = pd.to_datetime(df[col], errors="coerce")`, which mutates the
DataFrame in place — after converting the chosen column `"When"` of a table
holding the text `"2024-03-01"`, a holder of the pre-conversion table no
longer observes the original text value. -/
theorem convert_mutates_counterexample :
    (convert_selected_columns_to_datetime to_datetime_coerce
        ⟨[Value.text ['W']],
         [[Value.text ['2', '0', '2', '4', '-', '0', '3', '-', '0', '1']]]⟩
        [Value.text ['W']]).1 ≠
      ⟨[Value.text ['W']],
       [[Value.text ['2', '0', '2', '4', '-', '0', '3', '-', '0', '1']]]⟩ := by
  decide

/-- C3 (amended): the conversion is performed in place — after the call the
caller's pre-conversion reference and the returned value alias the same
post-assignment table (so a holder of the original observes the converted
values, not the originals) — while column labels, the row count and every
column whose label is not in the chosen set are untouched, for any cell
parser. -/
theorem convert_selected_columns_frame (parse : Value → Value) (df : Table)
    (cols : List Value) :
    (convert_selected_columns_to_datetime parse df cols).1 =
      (convert_selected_columns_to_datetime parse df cols).2 ∧
    (convert_selected_columns_to_datetime parse df cols).2.labels = df.labels ∧
    (convert_selected_columns_to_datetime parse df cols).2.rows.length =
      df.rows.length ∧
    ∀ j, j < df.labels.length → df.labels.getD j Value.missing ∉ cols →
      ∀ i, i < df.rows.length →
        ((convert_selected_columns_to_datetime parse df cols).2.rows.getD i []).getD
            j Value.missing =
          (df.rows.getD i []).getD j Value.missing := by
  obtain ⟨h1, h2⟩ := foldl_setColumn_shape parse cols df
  exact ⟨rfl, h1, h2, fun j hj hnot i hi =>
    foldl_setColumn_untouched parse cols df j hj hnot i hi⟩

/-- Witness for C3 (amended): converting column `"A"` of a two-column table
leaves column `"B"` (label, count and cells) untouched. -/
theorem convert_selected_columns_frame_witness :
    (convert_selected_columns_to_datetime to_datetime_coerce
        ⟨[Value.text ['A'], Value.text ['B']],
         [[Value.text ['x'], Value.num 7]]⟩ [Value.text ['A']]).1 =
      (convert_selected_columns_to_datetime to_datetime_coerce
        ⟨[Value.text ['A'], Value.text ['B']],
         [[Value.text ['x'], Value.num 7]]⟩ [Value.text ['A']]).2 ∧
    (((convert_selected_columns_to_datetime to_datetime_coerce
        ⟨[Value.text ['A'], Value.text ['B']],
         [[Value.text ['x'], Value.num 7]]⟩ [Value.text ['A']]).2.rows.getD 0 []).getD
        1 Value.missing) = Value.num 7 := by
  have h := convert_selected_columns_frame to_datetime_coerce
    ⟨[Value.text ['A'], Value.text ['B']], [[Value.text ['x'], Value.num 7]]⟩
    [Value.text ['A']]
  refine ⟨h.1, ?_⟩
  rw [h.2.2.2 1 (by decide) (by decide) 0 (by decide)]
  decide

theorem matchNDigits_some_iff :
    ∀ (n : Nat) (cs r : List Char), matchNDigits n cs = some r ↔
      ∃ d, cs = d ++ r ∧ d.length = n ∧ d.all Char.isDigit = true := by
  intro n
  induction n with
  | zero =>
    intro cs r
    constructor
    · intro h
      exact ⟨[], by simpa [matchNDigits] using h, rfl, rfl⟩
    · rintro ⟨d, hcs, hlen, _⟩
      have hd : d = [] := List.length_eq_zero.mp hlen
      subst hd
      simpa [matchNDigits] using hcs
  | succ n ih =>
    intro cs r
    cases cs with
    | nil =>
      constructor
      · intro h; simp [matchNDigits] at h
      · rintro ⟨d, hcs, hlen, _⟩
        exfalso
        have := congrArg List.length hcs
        simp [hlen] at this
        omega
    | cons c cs' =>
      by_cases hc : c.isDigit = true
      · rw [show matchNDigits (n + 1) (c :: cs') = matchNDigits n cs' from by
          simp [matchNDigits, hc]]
        rw [ih cs' r]
        constructor
        · rintro ⟨d', h1, h2, h3⟩
          exact ⟨c :: d', by simp [h1], by simp [h2], by simp [hc, h3]⟩
        · rintro ⟨d, hcs, hlen, hdig⟩
          cases d with
          | nil => simp at hlen
          | cons c0 d' =>
            rw [List.cons_append] at hcs
            injection hcs with hh1 hh2
            subst hh1
            simp only [List.all_cons, Bool.and_eq_true] at hdig
            exact ⟨d', hh2, by simpa using hlen, hdig.2⟩
      · replace hc : c.isDigit = false := by simpa using hc
        rw [show matchNDigits (n + 1) (c :: cs') = none from by simp [matchNDigits, hc]]
        constructor
        · intro h; cases h
        · rintro ⟨d, hcs, hlen, hdig⟩
          exfalso
          cases d with
          | nil => simp at hlen
          | cons c0 d' =>
            rw [List.cons_append] at hcs
            injection hcs with hh1 hh2
            subst hh1
            simp [hc] at hdig

theorem mem_option_toList {α : Type} (a : α) (o : Option α) :
    a ∈ o.toList ↔ o = some a := by
  cases o <;> simp [eq_comm]

theorem mem_afterDigits12 (cs r : List Char) :
    r ∈ afterDigits12 cs ↔
      ∃ d, cs = d ++ r ∧ (d.length = 1 ∨ d.length = 2) ∧
        d.all Char.isDigit = true := by
  unfold afterDigits12
  rw [List.mem_append, mem_option_toList, mem_option_toList,
    matchNDigits_some_iff, matchNDigits_some_iff]
  constructor
  · rintro (⟨d, h1, h2, h3⟩ | ⟨d, h1, h2, h3⟩)
    · exact ⟨d, h1, Or.inl h2, h3⟩
    · exact ⟨d, h1, Or.inr h2, h3⟩
  · rintro ⟨d, h1, h2 | h2, h3⟩
    · exact Or.inl ⟨d, h1, h2, h3⟩
    · exact Or.inr ⟨d, h1, h2, h3⟩

theorem afterChar_some_iff (sep : Char) (l r : List Char) :
    afterChar sep l = some r ↔ l = sep :: r := by
  cases l with
  | nil => simp [afterChar]
  | cons c cs =>
    by_cases hc : c = sep
    · subst hc; simp [afterChar]
    · simp [afterChar, hc]

theorem matchesDMY_iff (sep : Char) (cs : List Char) :
    matchesDMY sep cs = true ↔ dmyForm sep cs := by
  unfold matchesDMY dmyForm
  rw [List.any_eq_true]
  constructor
  · rintro ⟨r1, hr1, hbody⟩
    rcases (mem_afterDigits12 cs r1).mp hr1 with ⟨d, hcs, hd2, hd3⟩
    cases ha : afterChar sep r1 with
    | none => rw [ha] at hbody; cases hbody
    | some r2 =>
      rw [ha] at hbody
      have hr1eq : r1 = sep :: r2 := (afterChar_some_iff sep r1 r2).mp ha
      rw [List.any_eq_true] at hbody
      rcases hbody with ⟨r3, hr3, hbody2⟩
      rcases (mem_afterDigits12 r2 r3).mp hr3 with ⟨m, hr2, hm2, hm3⟩
      cases hb : afterChar sep r3 with
      | none => rw [hb] at hbody2; cases hbody2
      | some r4 =>
        rw [hb] at hbody2
        have hr3eq : r3 = sep :: r4 := (afterChar_some_iff sep r3 r4).mp hb
        rcases Option.isSome_iff_exists.mp hbody2 with ⟨rem, hrem⟩
        rcases (matchNDigits_some_iff 4 r4 rem).mp hrem with ⟨y, hr4, hy2, hy3⟩
        refine ⟨d, m, y, rem, ?_, hd2, hd3, hm2, hm3, hy2, hy3⟩
        rw [hcs, hr1eq, hr2, hr3eq, hr4]
  · rintro ⟨d, m, y, rest, hcs, hd2, hd3, hm2, hm3, hy2, hy3⟩
    refine ⟨sep :: (m ++ sep :: (y ++ rest)), ?_, ?_⟩
    · exact (mem_afterDigits12 cs _).mpr ⟨d, hcs, hd2, hd3⟩
    · rw [show afterChar sep (sep :: (m ++ sep :: (y ++ rest))) =
          some (m ++ sep :: (y ++ rest)) from (afterChar_some_iff sep _ _).mpr rfl]
      show ((afterDigits12 (m ++ sep :: (y ++ rest))).any fun r3 =>
        match afterChar sep r3 with
        | none => false
        | some r4 => (matchNDigits 4 r4).isSome) = true
      rw [List.any_eq_true]
      refine ⟨sep :: (y ++ rest), (mem_afterDigits12 _ _).mpr ⟨m, rfl, hm2, hm3⟩, ?_⟩
      rw [show afterChar sep (sep :: (y ++ rest)) = some (y ++ rest) from
        (afterChar_some_iff sep _ _).mpr rfl]
      show (matchNDigits 4 (y ++ rest)).isSome = true
      rw [show matchNDigits 4 (y ++ rest) = some rest from
        (matchNDigits_some_iff 4 _ rest).mpr ⟨y, rfl, hy2, hy3⟩]
      rfl

theorem matchesYMD_iff (cs : List Char) :
    matchesYMD cs = true ↔ ymdForm cs := by
  unfold matchesYMD ymdForm
  constructor
  · intro hbody
    cases ha : matchNDigits 4 cs with
    | none => rw [ha] at hbody; cases hbody
    | some r1 =>
      rw [ha] at hbody
      replace hbody : (match afterChar '-' r1 with
        | none => false
        | some r2 =>
          (afterDigits12 r2).any fun r3 =>
            match afterChar '-' r3 with
            | none => false
            | some r4 => !(afterDigits12 r4).isEmpty) = true := hbody
      rcases (matchNDigits_some_iff 4 cs r1).mp ha with ⟨y, hcs, hy2, hy3⟩
      cases hb : afterChar '-' r1 with
      | none => rw [hb] at hbody; cases hbody
      | some r2 =>
        rw [hb] at hbody
        have hr1eq : r1 = '-' :: r2 := (afterChar_some_iff '-' r1 r2).mp hb
        rw [List.any_eq_true] at hbody
        rcases hbody with ⟨r3, hr3, hbody2⟩
        rcases (mem_afterDigits12 r2 r3).mp hr3 with ⟨m, hr2, hm2, hm3⟩
        cases hc : afterChar '-' r3 with
        | none => rw [hc] at hbody2; cases hbody2
        | some r4 =>
          rw [hc] at hbody2
          replace hbody2 : (!(afterDigits12 r4).isEmpty) = true := hbody2
          have hr3eq : r3 = '-' :: r4 := (afterChar_some_iff '-' r3 r4).mp hc
          have hne : afterDigits12 r4 ≠ [] := by
            intro h
            rw [h] at hbody2
            simp at hbody2
          rcases List.exists_mem_of_ne_nil _ hne with ⟨r5, hr5⟩
          rcases (mem_afterDigits12 r4 r5).mp hr5 with ⟨d, hr4, hd2, hd3⟩
          refine ⟨y, m, d, r5, ?_, hy2, hy3, hm2, hm3, hd2, hd3⟩
          rw [hcs, hr1eq, hr2, hr3eq, hr4]
  · rintro ⟨y, m, d, rest, hcs, hy2, hy3, hm2, hm3, hd2, hd3⟩
    rw [show matchNDigits 4 cs = some ('-' :: (m ++ '-' :: (d ++ rest))) from
      (matchNDigits_some_iff 4 cs _).mpr ⟨y, hcs, hy2, hy3⟩]
    show (match afterChar '-' ('-' :: (m ++ '-' :: (d ++ rest))) with
      | none => false
      | some r2 =>
        (afterDigits12 r2).any fun r3 =>
          match afterChar '-' r3 with
          | none => false
          | some r4 => !(afterDigits12 r4).isEmpty) = true
    rw [show afterChar '-' ('-' :: (m ++ '-' :: (d ++ rest))) =
        some (m ++ '-' :: (d ++ rest)) from (afterChar_some_iff '-' _ _).mpr rfl]
    show ((afterDigits12 (m ++ '-' :: (d ++ rest))).any fun r3 =>
      match afterChar '-' r3 with
      | none => false
      | some r4 => !(afterDigits12 r4).isEmpty) = true
    rw [List.any_eq_true]
    refine ⟨'-' :: (d ++ rest), (mem_afterDigits12 _ _).mpr ⟨m, rfl, hm2, hm3⟩, ?_⟩
    rw [show afterChar '-' ('-' :: (d ++ rest)) = some (d ++ rest) from
      (afterChar_some_iff '-' _ _).mpr rfl]
    show (!(afterDigits12 (d ++ rest)).isEmpty) = true
    have hmem : rest ∈ afterDigits12 (d ++ rest) :=
      (mem_afterDigits12 _ _).mpr ⟨d, rfl, hd2, hd3⟩
    have hne := List.ne_nil_of_mem hmem
    cases hl : afterDigits12 (d ++ rest) with
    | nil => exact absurd hl hne
    | cons a as => rfl

/-- C8: date-pattern predicate — for every (trimmed) string, `is_date_pattern`
holds if and only if the string begins with one of the literal forms
`D-M-YYYY`, `YYYY-M-D` or `D/M/YYYY`, with 1-2 digit day and month and a
4-digit year, tested at the start of the string. -/
theorem is_date_pattern_iff_forms (cs : List Char) :
    is_date_pattern cs = true ↔ dmyForm '-' cs ∨ ymdForm cs ∨ dmyForm '/' cs := by
  unfold is_date_pattern
  rw [Bool.or_eq_true, Bool.or_eq_true, matchesDMY_iff, matchesYMD_iff, matchesDMY_iff]
  exact or_assoc

/-- Witness for C8: the predicate accepts `"01-03-2024"`, which therefore
begins with one of the three literal date forms, and the equivalence holds at
that input. -/
theorem is_date_pattern_iff_forms_witness :
    (is_date_pattern exDate1 = true ↔
      dmyForm '-' exDate1 ∨ ymdForm exDate1 ∨ dmyForm '/' exDate1) ∧
    (dmyForm '-' exDate1 ∨ ymdForm exDate1 ∨ dmyForm '/' exDate1) :=
  ⟨is_date_pattern_iff_forms exDate1,
   (is_date_pattern_iff_forms exDate1).mp (by decide)⟩
